import Mathlib

/-!
# DocScribe core embedding

A shallow embedding of the DocScribe medical audio summarization core
(src/core.py, src/app_chat.py).  External services (the Groq speech-to-text
endpoint, the Anthropic generation endpoint, the JSON decoder) are modelled as
oracle functions supplied as parameters; Python exceptions are modelled with
`Except`; Python byte strings are `List Nat`; Python unicode strings are Lean
`String` (character-indexed, as in Python).
-/

/-- A JSON value as produced by `json.loads` or received as structured tool
arguments.  Numbers are modelled as integers; no claim inspects numeric
payload values, only whether a value is a string. -/
inductive JValue where
  | str (s : String)
  | num (n : Int)
  | bool (b : Bool)
  | null
  | arr (xs : List JValue)
  | obj (fields : List (String × JValue))
deriving Repr

/-- The structural mismatch a payload can exhibit against the `SumarioPaciente`
shape.  Models the `pydantic.ValidationError` raised when the declared field
types of `SumarioPaciente` (src/core.py lines 26-51) reject a payload, and the
`TypeError` raised by keyword expansion over a non-object. -/
inductive SchemaValidationError where
  | missingField (field : String)
  | invalidType (field : String)
  | notAnObject
deriving DecidableEq, Repr

/-- The structured patient record, src/core.py lines 26-51: bed, patient name,
and three string-list fields (diagnoses, pending items, care actions). -/
structure SumarioPaciente where
  leito : String
  nome_paciente : String
  diagnosticos : List String
  pendencias : List String
  condutas : List String
deriving DecidableEq, Repr

/-- The 1-based numbered lines of one list section of the rendering:
`enumerate(xs, i)` producing one line per entry in order, each line
holding the 1-based index, a hyphen, a space, and the entry. -/
def numberedLines (i : Nat) : List String → List String
  | [] => []
  | x :: xs => (toString i ++ "- " ++ x) :: numberedLines (i + 1) xs

/-- The line list `linhas` built by `formatar`, src/core.py lines 55-69:
header, blank, numbered diagnoses section, blank, numbered pending
section, blank, bulleted actions section. -/
def SumarioPaciente.linhas (s : SumarioPaciente) : List String :=
  ["Leito " ++ s.leito ++ " - " ++ s.nome_paciente, "", "Diagnósticos:"]
    ++ numberedLines 1 s.diagnosticos
    ++ ["", "Pendências:"]
    ++ numberedLines 1 s.pendencias
    ++ ["", "Condutas:"]
    ++ s.condutas.map (fun c => "• " ++ c)

/-- The canonical plain-text rendering, src/core.py lines 53-71: the line
list joined with a newline between consecutive lines. -/
def SumarioPaciente.formatar (s : SumarioPaciente) : String :=
  String.intercalate "\n" s.linhas

/-- Python dict lookup on a JSON object's key-value pairs. -/
def lookupField (payload : List (String × JValue)) (field : String) : Option JValue :=
  (payload.find? (fun kv => kv.1 == field)).map (fun kv => kv.2)

/-- The string carried by a JSON string value, and nothing else: pydantic v2
does not coerce numbers, booleans, null, arrays or objects into `str`. -/
def asStr : JValue → Option String
  | .str s => some s
  | _ => none

/-- Validation of one required `str` field. -/
def requireStr (payload : List (String × JValue)) (field : String) :
    Except SchemaValidationError String :=
  match lookupField payload field with
  | none => .error (.missingField field)
  | some v =>
    match asStr v with
    | some s => .ok s
    | none => .error (.invalidType field)

/-- Validation of one required `list[str]` field: the value must be an array
whose every element is a string. -/
def requireStrList (payload : List (String × JValue)) (field : String) :
    Except SchemaValidationError (List String) :=
  match lookupField payload field with
  | none => .error (.missingField field)
  | some (.arr xs) =>
    match xs.mapM asStr with
    | some l => .ok l
    | none => .error (.invalidType field)
  | some _ => .error (.invalidType field)

/-- Deserialization of a key-value payload into `SumarioPaciente`: the
pydantic validation of the field types declared in src/core.py lines 26-51.
All five fields are required; the two scalar fields must be strings; the
three list fields must be arrays of strings; keys other than the five are
never consulted (pydantic's default `extra='ignore'` behaviour under
keyword expansion, src/app_chat.py line 241). -/
def SumarioPaciente.validate (payload : List (String × JValue)) :
    Except SchemaValidationError SumarioPaciente :=
  match requireStr payload "leito" with
  | .error e => .error e
  | .ok leito =>
    match requireStr payload "nome_paciente" with
    | .error e => .error e
    | .ok nome =>
      match requireStrList payload "diagnosticos" with
      | .error e => .error e
      | .ok d =>
        match requireStrList payload "pendencias" with
        | .error e => .error e
        | .ok p =>
          match requireStrList payload "condutas" with
          | .error e => .error e
          | .ok c =>
            .ok { leito := leito, nome_paciente := nome,
                  diagnosticos := d, pendencias := p, condutas := c }

/-- The five required field names of the schema. -/
def requiredFields : List String :=
  ["leito", "nome_paciente", "diagnosticos", "pendencias", "condutas"]

/-- The three list-typed field names of the schema. -/
def listFields : List String := ["diagnosticos", "pendencias", "condutas"]

/-- `SumarioPaciente(**data)` on a decoded JSON value: keyword expansion
requires an object; the object's pairs then go through schema validation. -/
def validateTop : JValue → Except SchemaValidationError SumarioPaciente
  | .obj fields => SumarioPaciente.validate fields
  | _ => .error .notAnObject

/-- A Python exception, as observed by a caller of the pipeline: an upstream
service fault carrying its diagnostic detail, a pydantic validation failure,
or a JSON decoding failure. -/
inductive PyError where
  | upstream (detail : String)
  | validation (e : SchemaValidationError)
  | jsonDecode (detail : String)
deriving DecidableEq, Repr

/-- Groq's fastest Whisper model, src/core.py line 165. -/
def WHISPER_MODEL : String := "whisper-large-v3-turbo"

/-- Claude Sonnet 4, src/core.py line 166. -/
def CLAUDE_MODEL : String := "claude-sonnet-4-20250514"

/-- The request `transcribe_audio` sends to the speech-to-text service:
the file tuple (filename, bytes) plus the fixed configuration. -/
structure TranscriptionRequest where
  file_name : String
  file_bytes : List Nat
  model : String
  temperature : Nat
  response_format : String
deriving DecidableEq, Repr

/-- The verbose response of the speech-to-text service: the flat top-level
transcript text together with per-segment detail (segments carry their own
text and timing, modelled opaquely as strings; `transcribe_audio` never
reads them). -/
structure VerboseTranscriptionResponse where
  text : String
  segments : List String
  language : String
deriving DecidableEq, Repr

/-- The request record built by `transcribe_audio` for given audio bytes and
filename, src/core.py lines 194-199: the file tuple, the fixed Whisper
model, temperature 0, and the verbose JSON response format. -/
def transcriptionRequest (audio_bytes : List Nat) (filename : String) :
    TranscriptionRequest :=
  { file_name := filename, file_bytes := audio_bytes,
    model := WHISPER_MODEL, temperature := 0,
    response_format := "verbose_json" }

/-- `transcribe_audio` (src/core.py lines 173-201): invoke the speech-to-text
service once with the fixed configuration and return the flat `text` field of
its verbose response; any service fault propagates unchanged. -/
def transcribe_audio
    (svc : TranscriptionRequest → Except PyError VerboseTranscriptionResponse)
    (audio_bytes : List Nat) (filename : String) : Except PyError String :=
  match svc (transcriptionRequest audio_bytes filename) with
  | .error e => .error e
  | .ok transcription => .ok transcription.text

/-- The request `analyze_transcription` sends to the generation service:
the transcription interpolated into the fixed prompt pair, temperature 0,
the fixed Claude model.  The surrounding prompt text (SYSTEM_PROMPT and
HUMAN_PROMPT_TEMPLATE, src/core.py lines 78-158) is fixed instruction
content that no claim inspects; the request carries the transcription it
interpolates. -/
structure ExtractionRequest where
  transcription : String
  temperature : Nat
  model : String
deriving DecidableEq, Repr

/-- The request record built by `analyze_transcription` for a given
transcription, src/core.py lines 226-243. -/
def extractionRequest (transcription : String) : ExtractionRequest :=
  { transcription := transcription, temperature := 0, model := CLAUDE_MODEL }

/-- `analyze_transcription` (src/core.py lines 208-245): invoke the generation
service once in structured-output mode.  The service yields raw structured
arguments (a JSON value) or a fault; the structured-output wrapper then
validates the arguments against the `SumarioPaciente` schema, raising the
validation failure if they do not conform.  A service fault propagates
unchanged. -/
def analyze_transcription
    (gen : ExtractionRequest → Except PyError JValue)
    (transcription : String) : Except PyError SumarioPaciente :=
  match gen (extractionRequest transcription) with
  | .error e => .error e
  | .ok payload =>
    match validateTop payload with
    | .error v => .error (.validation v)
    | .ok sumario => .ok sumario

/-- `process_audio` (src/core.py lines 252-276): transcription, then analysis
of the transcription, returning the pair; the first failure aborts the run. -/
def process_audio
    (svc : TranscriptionRequest → Except PyError VerboseTranscriptionResponse)
    (gen : ExtractionRequest → Except PyError JValue)
    (audio_bytes : List Nat) (filename : String) :
    Except PyError (String × SumarioPaciente) :=
  match transcribe_audio svc audio_bytes filename with
  | .error e => .error e
  | .ok transcription =>
    match analyze_transcription gen transcription with
    | .error e => .error e
    | .ok sumario => .ok (transcription, sumario)

/-- One turn of the chat history, src/app_chat.py: a role tag and content. -/
structure ChatMessage where
  role : String
  content : String
deriving DecidableEq, Repr

/-- The conversational session state held in `st.session_state`,
src/app_chat.py lines 73-80: the message history, the stored transcription,
and the finalized record if one has been parsed out. -/
structure ChatSession where
  messages : List ChatMessage
  transcription : Option String
  sumario_final : Option SumarioPaciente
deriving DecidableEq, Repr

/-- What a chat turn reports after the assistant response is saved:
a finalized record was extracted, a recoverable warning was shown,
or the response carried no delimited payload. -/
inductive TurnOutcome where
  | finalized (s : SumarioPaciente)
  | warned
  | plain
deriving DecidableEq, Repr

/-- The character index of the first occurrence of `need` in `hay`
(Python `str.index` / the `in` operator). -/
def findSubstr (need : List Char) : List Char → Option Nat
  | [] => if List.isPrefixOf need [] then some 0 else none
  | c :: t =>
    if List.isPrefixOf need (c :: t) then some 0
    else (findSubstr need t).map (fun i => i + 1)

/-- The opening sentinel tag, src/app_chat.py line 234. -/
def openTag : List Char := "<sumario_json>".toList

/-- The closing sentinel tag, src/app_chat.py line 234. -/
def closeTag : List Char := "</sumario_json>".toList

/-- Python `str.strip`: whitespace removed from both ends. -/
def trimChars (cs : List Char) : List Char :=
  ((cs.dropWhile Char.isWhitespace).reverse.dropWhile Char.isWhitespace).reverse

/-- The candidate payload of an assistant response, src/app_chat.py lines
234-238: `none` unless both sentinel tags occur; otherwise the slice from the
end of the first opening tag to the first closing tag (empty when the end
index does not exceed the start index, as for a Python slice), stripped. -/
def extractPayload (full_response : String) : Option String :=
  let cs := full_response.toList
  match findSubstr openTag cs, findSubstr closeTag cs with
  | some o, some c =>
    let json_start := o + openTag.length
    some (String.mk (trimChars ((cs.drop json_start).take (c - json_start))))
  | _, _ => none

/-- One submitted chat turn, src/app_chat.py lines 199-247: append the user
message, stream the assistant response over the grown history, append it,
then attempt finalization — if the response carries a delimited payload that
decodes and validates, store the record; if decoding or validation fails,
leave the state as it was after the ordinary append and warn; otherwise the
turn is an ordinary conversation turn.  `gen` is the streamed generation
service (the committed turn is its completed text); `loads` is `json.loads`,
returning `none` where it would raise. -/
def chatTurn (gen : List ChatMessage → String) (loads : String → Option JValue)
    (st : ChatSession) (prompt : String) : ChatSession × TurnOutcome :=
  let msgs1 := st.messages ++ [{ role := "user", content := prompt }]
  let full_response := gen msgs1
  let st1 : ChatSession :=
    { st with messages := msgs1 ++ [{ role := "assistant", content := full_response }] }
  match extractPayload full_response with
  | none => (st1, .plain)
  | some payload =>
    match loads payload with
    | none => (st1, .warned)
    | some data =>
      match validateTop data with
      | .error _ => (st1, .warned)
      | .ok sumario => ({ st1 with sumario_final := some sumario }, .finalized sumario)

/-- The sidebar reset button, src/app_chat.py lines 179-183: empty the
history, clear the stored transcription, drop any finalized record. -/
def resetSession (_st : ChatSession) : ChatSession :=
  { messages := [], transcription := none, sumario_final := none }

/-- Splitting a character list at every occurrence of a separator character
(Python `str.split("\n")` at the character level). -/
def splitOnChar (c : Char) : List Char → List (List Char)
  | [] => [[]]
  | x :: t =>
    match splitOnChar c t with
    | [] => [[]]
    | l :: ls => if x = c then [] :: l :: ls else (x :: l) :: ls

/-- The physical lines of a rendered string: the chunks between newline
characters. -/
def splitLines (s : String) : List String :=
  (splitOnChar '\n' s.toList).map String.mk

theorem string_data_append (a b : String) : (a ++ b).toList = a.toList ++ b.toList := rfl

theorem string_mk_toList (s : String) : String.mk s.toList = s := rfl

theorem string_mk_append (xs ys : List Char) :
    String.mk xs ++ String.mk ys = String.mk (xs ++ ys) := rfl

theorem newline_toList : ("\n" : String).toList = ['\n'] := rfl

theorem splitOnChar_ne_nil (c : Char) (cs : List Char) : splitOnChar c cs ≠ [] := by
  induction cs with
  | nil => simp [splitOnChar]
  | cons x t ih =>
    cases h : splitOnChar c t with
    | nil => exact absurd h ih
    | cons l ls =>
      simp only [splitOnChar, h]
      split <;> simp

theorem splitOnChar_not_mem (c : Char) (l : List Char) (h : c ∉ l) :
    splitOnChar c l = [l] := by
  induction l with
  | nil => simp [splitOnChar]
  | cons x t ih =>
    have hx : x ≠ c := by rintro rfl; exact h (List.mem_cons_self _ _)
    have ht : c ∉ t := fun hm => h (List.mem_cons_of_mem _ hm)
    simp only [splitOnChar, ih ht]
    rw [if_neg hx]

theorem splitOnChar_append (c : Char) (l rest : List Char) (h : c ∉ l) :
    splitOnChar c (l ++ c :: rest) = l :: splitOnChar c rest := by
  induction l with
  | nil =>
    cases hr : splitOnChar c rest with
    | nil => exact absurd hr (splitOnChar_ne_nil c rest)
    | cons a as =>
      simp only [List.nil_append, splitOnChar, hr]
      simp
  | cons x t ih =>
    have hx : x ≠ c := by rintro rfl; exact h (List.mem_cons_self _ _)
    have ht : c ∉ t := fun hm => h (List.mem_cons_of_mem _ hm)
    simp only [List.cons_append, splitOnChar, List.append_eq, ih ht]
    simp [hx]

theorem intercalate_go_append (s : String) (l : List String) :
    ∀ x y : String, String.intercalate.go (x ++ y) s l = x ++ String.intercalate.go y s l := by
  induction l with
  | nil => intro x y; rfl
  | cons a as ih =>
    intro x y
    show String.intercalate.go (x ++ y ++ s ++ a) s as
      = x ++ String.intercalate.go (y ++ s ++ a) s as
    rw [String.append_assoc x y s, String.append_assoc x (y ++ s) a]
    exact ih x (y ++ s ++ a)

theorem intercalate_cons_cons (s a b : String) (l : List String) :
    String.intercalate s (a :: b :: l) = a ++ s ++ String.intercalate s (b :: l) := by
  show String.intercalate.go a s (b :: l) = a ++ s ++ String.intercalate.go b s l
  show String.intercalate.go (a ++ s ++ b) s l = a ++ s ++ String.intercalate.go b s l
  exact intercalate_go_append s l (a ++ s) b

theorem splitLines_intercalate (l : List String) (hne : l ≠ [])
    (hclean : ∀ x ∈ l, '\n' ∉ x.toList) :
    splitLines (String.intercalate "\n" l) = l := by
  induction l with
  | nil => exact absurd rfl hne
  | cons a as ih =>
    cases as with
    | nil =>
      have h1 : String.intercalate "\n" [a] = a := rfl
      rw [h1]
      simp only [splitLines]
      rw [splitOnChar_not_mem _ _ (hclean a (by simp))]
      simp [string_mk_toList]
    | cons b bs =>
      rw [intercalate_cons_cons]
      have htl : (a ++ "\n" ++ String.intercalate "\n" (b :: bs)).toList
          = a.toList ++ '\n' :: (String.intercalate "\n" (b :: bs)).toList := by
        simp [string_data_append, newline_toList]
      have hih := ih (by simp) (by intro x hx; exact hclean x (by simp [hx]))
      simp only [splitLines] at hih ⊢
      rw [htl, splitOnChar_append _ _ _ (hclean a (by simp)), List.map_cons,
        string_mk_toList, hih]

theorem digitChar_ne_newline (d : Nat) : Nat.digitChar d ≠ '\n' := by
  match d with
  | 0 => decide
  | 1 => decide
  | 2 => decide
  | 3 => decide
  | 4 => decide
  | 5 => decide
  | 6 => decide
  | 7 => decide
  | 8 => decide
  | 9 => decide
  | 10 => decide
  | 11 => decide
  | 12 => decide
  | 13 => decide
  | 14 => decide
  | 15 => decide
  | n + 16 =>
    simp only [Nat.digitChar]
    repeat rw [if_neg (by omega)]
    decide

theorem toDigitsCore_ne_newline (b : Nat) : ∀ (fuel n : Nat) (ds : List Char),
    (∀ ch ∈ ds, ch ≠ '\n') → ∀ ch ∈ Nat.toDigitsCore b fuel n ds, ch ≠ '\n' := by
  intro fuel
  induction fuel with
  | zero => intro n ds h; simpa [Nat.toDigitsCore] using h
  | succ f ih =>
    intro n ds h
    simp only [Nat.toDigitsCore]
    split
    · intro ch hch
      rcases List.mem_cons.mp hch with rfl | hm
      · exact digitChar_ne_newline _
      · exact h ch hm
    · exact ih _ _ (by
        intro ch hch
        rcases List.mem_cons.mp hch with rfl | hm
        · exact digitChar_ne_newline _
        · exact h ch hm)

theorem toString_nat_ne_newline (n : Nat) : '\n' ∉ (toString n).toList := by
  intro hmem
  have hall : ∀ ch ∈ Nat.toDigits 10 n, ch ≠ '\n' :=
    toDigitsCore_ne_newline 10 (n + 1) n [] (by simp)
  have heq : (toString n).toList = Nat.toDigits 10 n := rfl
  exact hall '\n' (heq ▸ hmem) rfl

/-- No newline character occurs in the string (decidably). -/
def strNoNL (s : String) : Bool := s.toList.all (fun ch => ch != '\n')

/-- No newline character occurs in any of the record's five fields. -/
def noNewlines (r : SumarioPaciente) : Bool :=
  strNoNL r.leito && strNoNL r.nome_paciente &&
    r.diagnosticos.all strNoNL && r.pendencias.all strNoNL && r.condutas.all strNoNL

theorem strNoNL_iff (s : String) : strNoNL s = true ↔ '\n' ∉ s.toList := by
  simp only [strNoNL, List.all_eq_true, bne_iff_ne]
  exact ⟨fun h hm => h _ hm rfl, fun h x hx hxe => h (hxe ▸ hx)⟩

/-- First element and remainder of a list of lines. -/
def uncons : List String → Option (String × List String)
  | [] => none
  | l :: rest => some (l, rest)

/-- Consume one line that must equal the given fixed text. -/
def expectLine (s : String) : List String → Option (List String)
  | [] => none
  | l :: rest => if l = s then some rest else none

/-- The remainder of the string after a required literal leading text;
`none` when the text does not lead the string. -/
def dropPrefixStr (p s : String) : Option String :=
  if List.isPrefixOf p.toList s.toList then
    some (String.mk (s.toList.drop p.toList.length))
  else none

/-- The pieces before and after the first occurrence of a separator;
`none` when the separator does not occur. -/
def splitFirstStr (sep s : String) : Option (String × String) :=
  match findSubstr sep.toList s.toList with
  | none => none
  | some i =>
    some (String.mk (s.toList.take i),
      String.mk (s.toList.drop (i + sep.toList.length)))

/-- The lines of one section up to its terminating blank line, together with
the lines after the blank; `none` when no blank line follows. -/
def takeSection : List String → Option (List String × List String)
  | [] => none
  | l :: rest =>
    if l = "" then some ([], rest)
    else (takeSection rest).map (fun pr => (l :: pr.1, pr.2))

/-- The entries of a numbered section, the first line carrying index `i`:
each line must open with its 1-based index, a hyphen and a space, and
yields the text after them. -/
def parseNumbered (i : Nat) : List String → Option (List String)
  | [] => some []
  | l :: rest =>
    match dropPrefixStr (toString i ++ "- ") l with
    | none => none
    | some e => (parseNumbered (i + 1) rest).map (fun es => e :: es)

/-- The entries of the bullet section: each line must open with the bullet
marker and yields the text after it. -/
def parseBullets : List String → Option (List String)
  | [] => some []
  | l :: rest =>
    match dropPrefixStr "• " l with
    | none => none
    | some e => (parseBullets rest).map (fun es => e :: es)

/-- Modelled from the spec: no parser of the rendered text exists in the
source; this is the inverse of the section 4.1 rendering contract, read off
its words — a header line `Bed {bed} - {patientName}`, a blank line, a
diagnoses section of 1-based numbered entries, a blank line, a pending
section of 1-based numbered entries, a blank line, and a bullet-marked
actions section running to the end of the text. -/
def parseSumario (text : String) : Option SumarioPaciente := do
  let (header, r0) ← uncons (splitLines text)
  let r1 ← expectLine "" r0
  let r2 ← expectLine "Diagnósticos:" r1
  let hb ← dropPrefixStr "Leito " header
  let (leito, nome) ← splitFirstStr " - " hb
  let (dlines, r3) ← takeSection r2
  let r4 ← expectLine "Pendências:" r3
  let (plines, r5) ← takeSection r4
  let clines ← expectLine "Condutas:" r5
  let d ← parseNumbered 1 dlines
  let p ← parseNumbered 1 plines
  let c ← parseBullets clines
  pure { leito := leito, nome_paciente := nome,
         diagnosticos := d, pendencias := p, condutas := c }

theorem dropPrefixStr_append (p r : String) : dropPrefixStr p (p ++ r) = some r := by
  have hpre : List.isPrefixOf p.toList (p ++ r).toList = true := by
    rw [string_data_append]
    exact List.isPrefixOf_iff_prefix.mpr (List.prefix_append _ _)
  simp only [dropPrefixStr, hpre, if_pos]
  rw [string_data_append, List.drop_left, string_mk_toList]

theorem findSubstr_recomb (need : List Char) :
    ∀ (hay : List Char) (i : Nat), findSubstr need hay = some i →
      hay.take i ++ need ++ hay.drop (i + need.length) = hay := by
  intro hay
  induction hay with
  | nil =>
    intro i h
    simp only [findSubstr] at h
    split at h
    · rename_i hp
      have hneed : need = [] := List.prefix_nil.mp (List.isPrefixOf_iff_prefix.mp hp)
      cases h
      simp [hneed]
    · exact absurd h (by simp)
  | cons x t ih =>
    intro i h
    simp only [findSubstr] at h
    split at h
    · rename_i hp
      have hi : i = 0 := by
        have := h
        simp at this
        omega
      subst hi
      obtain ⟨u, hu⟩ := List.isPrefixOf_iff_prefix.mp hp
      simp only [List.take_zero, List.nil_append, Nat.zero_add]
      calc need ++ (x :: t).drop need.length
          = need ++ (need ++ u).drop need.length := by rw [hu]
        _ = need ++ u := by rw [List.drop_left]
        _ = x :: t := hu
    · rename_i hp
      cases hfs : findSubstr need t with
      | none => rw [hfs] at h; simp at h
      | some j =>
        rw [hfs] at h
        simp only [Option.map_some'] at h
        cases h
        have hrec := ih j hfs
        show (x :: t).take (j + 1) ++ need ++ (x :: t).drop (j + 1 + need.length) = x :: t
        have hdrop : (x :: t).drop (j + 1 + need.length) = t.drop (j + need.length) := by
          have : j + 1 + need.length = (j + need.length) + 1 := by omega
          rw [this]
          rfl
        rw [hdrop, List.take_succ_cons, List.cons_append, List.cons_append, hrec]

theorem findSubstr_exists (need : List Char) (hne : need ≠ []) (a b : List Char) :
    (findSubstr need (a ++ need ++ b)).isSome = true := by
  induction a with
  | nil =>
    rcases need with _ | ⟨n0, nt⟩
    · exact absurd rfl hne
    · have hp : List.isPrefixOf (n0 :: nt) ((n0 :: nt) ++ b) = true :=
        List.isPrefixOf_iff_prefix.mpr (List.prefix_append _ _)
      simp only [List.cons_append] at hp
      simp only [List.nil_append, List.cons_append, findSubstr]
      simp [hp]
  | cons x a' ih =>
    simp only [List.cons_append, findSubstr]
    split
    · simp
    · simpa using ih

theorem empty_toList : ("" : String).toList = [] := rfl

theorem splitFirstStr_spec (sep x y : String) (hsep : sep.toList ≠ []) :
    ∃ pre post, splitFirstStr sep (x ++ sep ++ y) = some (pre, post) ∧
      pre ++ sep ++ post = x ++ sep ++ y := by
  have hx : (x ++ sep ++ y).toList = x.toList ++ sep.toList ++ y.toList := by
    simp [string_data_append]
  have hsome := findSubstr_exists sep.toList hsep x.toList y.toList
  obtain ⟨i, hi⟩ := Option.isSome_iff_exists.mp hsome
  have hfs : findSubstr sep.toList (x ++ sep ++ y).toList = some i := by
    rw [hx]; exact hi
  refine ⟨String.mk ((x ++ sep ++ y).toList.take i),
    String.mk ((x ++ sep ++ y).toList.drop (i + sep.toList.length)), ?_, ?_⟩
  · simp only [splitFirstStr, hfs]
  · have hrec := findSubstr_recomb sep.toList (x ++ sep ++ y).toList i hfs
    calc String.mk ((x ++ sep ++ y).toList.take i) ++ sep
          ++ String.mk ((x ++ sep ++ y).toList.drop (i + sep.toList.length))
        = String.mk ((x ++ sep ++ y).toList.take i) ++ String.mk sep.toList
          ++ String.mk ((x ++ sep ++ y).toList.drop (i + sep.toList.length)) := by
          rw [string_mk_toList]
      _ = String.mk ((x ++ sep ++ y).toList.take i ++ sep.toList
            ++ (x ++ sep ++ y).toList.drop (i + sep.toList.length)) := by
          rw [string_mk_append, string_mk_append]
      _ = String.mk (x ++ sep ++ y).toList := by rw [hrec]
      _ = x ++ sep ++ y := string_mk_toList _

theorem takeSection_exact (xs ys : List String) (h : ∀ l ∈ xs, l ≠ "") :
    takeSection (xs ++ "" :: ys) = some (xs, ys) := by
  induction xs with
  | nil => simp [takeSection]
  | cons l rest ih =>
    have hl : l ≠ "" := h l (by simp)
    simp only [List.cons_append, takeSection, if_neg hl, List.append_eq]
    rw [ih (fun m hm => h m (by simp [hm]))]
    rfl

theorem parseNumbered_numberedLines (xs : List String) :
    ∀ i, parseNumbered i (numberedLines i xs) = some xs := by
  induction xs with
  | nil => intro i; simp [numberedLines, parseNumbered]
  | cons x rest ih =>
    intro i
    simp only [numberedLines, parseNumbered, dropPrefixStr_append, ih (i + 1),
      Option.map_some']

theorem parseBullets_map (xs : List String) :
    parseBullets (xs.map (fun c => "• " ++ c)) = some xs := by
  induction xs with
  | nil => simp [parseBullets]
  | cons x rest ih =>
    simp only [List.map_cons, parseBullets, dropPrefixStr_append, ih, Option.map_some']

theorem numberedLines_clean (xs : List String) (h : ∀ x ∈ xs, '\n' ∉ x.toList) :
    ∀ i, ∀ l ∈ numberedLines i xs, '\n' ∉ l.toList := by
  induction xs with
  | nil => intro i l hl; simp [numberedLines] at hl
  | cons x rest ih =>
    intro i l hl
    rcases List.mem_cons.mp hl with rfl | hm
    · intro hmem
      rw [string_data_append, string_data_append] at hmem
      rcases List.mem_append.mp hmem with h1 | h2
      · rcases List.mem_append.mp h1 with ha | hb
        · exact toString_nat_ne_newline i ha
        · exact absurd hb (by decide)
      · exact h x (by simp) h2
    · exact ih (fun m hm2 => h m (by simp [hm2])) (i + 1) l hm

theorem numberedLines_ne_empty (xs : List String) :
    ∀ i, ∀ l ∈ numberedLines i xs, l ≠ "" := by
  induction xs with
  | nil => intro i l hl; simp [numberedLines] at hl
  | cons x rest ih =>
    intro i l hl
    rcases List.mem_cons.mp hl with rfl | hm
    · intro he
      have h2 := congrArg String.toList he
      rw [string_data_append, string_data_append, empty_toList] at h2
      simp [show ("- " : String).toList = ['-', ' '] from rfl] at h2
    · exact ih (i + 1) l hm

theorem linhas_clean (s : SumarioPaciente) (h : noNewlines s = true) :
    ∀ l ∈ s.linhas, '\n' ∉ l.toList := by
  have hh := h
  simp only [noNewlines, Bool.and_eq_true, List.all_eq_true] at hh
  obtain ⟨⟨⟨⟨hleito, hnome⟩, hd⟩, hp⟩, hc⟩ := hh
  intro l hl
  simp only [SumarioPaciente.linhas, List.append_assoc, List.cons_append,
    List.nil_append, List.mem_cons, List.mem_append, List.mem_map] at hl
  rcases hl with rfl | hl
  · intro hmem
    rw [string_data_append, string_data_append] at hmem
    rcases List.mem_append.mp hmem with h1 | h2
    · rcases List.mem_append.mp h1 with ha | hb
      · rcases List.mem_append.mp ha with ha1 | ha2
        · exact absurd ha1 (by decide)
        · exact (strNoNL_iff _).mp hleito ha2
      · exact absurd hb (by decide)
    · exact (strNoNL_iff _).mp hnome h2
  · rcases hl with rfl | hl
    · simp [empty_toList]
    · rcases hl with rfl | hl
      · decide
      · rcases hl with hnum | hl
        · exact numberedLines_clean s.diagnosticos
            (fun x hx => (strNoNL_iff _).mp (hd x hx)) 1 l hnum
        · rcases hl with rfl | hl
          · simp [empty_toList]
          · rcases hl with rfl | hl
            · decide
            · rcases hl with hnum | hl
              · exact numberedLines_clean s.pendencias
                  (fun x hx => (strNoNL_iff _).mp (hp x hx)) 1 l hnum
              · rcases hl with rfl | hl
                · simp [empty_toList]
                · rcases hl with rfl | hl
                  · decide
                  · obtain ⟨c, hcm, rfl⟩ := hl
                    intro hmem
                    rw [string_data_append] at hmem
                    rcases List.mem_append.mp hmem with h1 | h2
                    · exact absurd h1 (by decide)
                    · exact (strNoNL_iff _).mp (hc c hcm) h2

theorem splitLines_formatar (s : SumarioPaciente) (h : noNewlines s = true) :
    splitLines s.formatar = s.linhas := by
  have hne : s.linhas ≠ [] := by simp [SumarioPaciente.linhas]
  exact splitLines_intercalate s.linhas hne (linhas_clean s h)

theorem expectLine_cons (s : String) (rest : List String) :
    expectLine s (s :: rest) = some rest := by
  simp [expectLine]

theorem parseSumario_formatar (s : SumarioPaciente) (h : noNewlines s = true) :
    ∃ leito nome,
      parseSumario s.formatar
        = some { leito := leito, nome_paciente := nome,
                 diagnosticos := s.diagnosticos, pendencias := s.pendencias,
                 condutas := s.condutas } ∧
      "Leito " ++ leito ++ " - " ++ nome
        = "Leito " ++ s.leito ++ " - " ++ s.nome_paciente := by
  obtain ⟨pre, post, hsf, hrecomb⟩ :=
    splitFirstStr_spec " - " s.leito s.nome_paciente (by decide)
  refine ⟨pre, post, ?_, ?_⟩
  · have hsplit := splitLines_formatar s h
    have hdrop : dropPrefixStr "Leito " ("Leito " ++ s.leito ++ " - " ++ s.nome_paciente)
        = some (s.leito ++ " - " ++ s.nome_paciente) := by
      have hd := dropPrefixStr_append "Leito " (s.leito ++ " - " ++ s.nome_paciente)
      rw [← String.append_assoc, ← String.append_assoc] at hd
      exact hd
    have hts1 := takeSection_exact (numberedLines 1 s.diagnosticos)
      ("Pendências:" :: (numberedLines 1 s.pendencias
        ++ "" :: "Condutas:" :: s.condutas.map (fun c => "• " ++ c)))
      (numberedLines_ne_empty s.diagnosticos 1)
    have hts2 := takeSection_exact (numberedLines 1 s.pendencias)
      ("Condutas:" :: s.condutas.map (fun c => "• " ++ c))
      (numberedLines_ne_empty s.pendencias 1)
    simp only [parseSumario, hsplit, SumarioPaciente.linhas, List.cons_append,
      List.nil_append, List.append_assoc, uncons, Option.bind_eq_bind,
      Option.some_bind, Option.pure_def, expectLine_cons, hdrop, hsf,
      hts1, hts2, parseNumbered_numberedLines, parseBullets_map]
  · have hmid : "Leito " ++ (pre ++ " - " ++ post)
        = "Leito " ++ (s.leito ++ " - " ++ s.nome_paciente) := by rw [hrecomb]
    calc "Leito " ++ pre ++ " - " ++ post
        = "Leito " ++ (pre ++ " - " ++ post) := by simp [String.append_assoc]
      _ = "Leito " ++ (s.leito ++ " - " ++ s.nome_paciente) := hmid
      _ = "Leito " ++ s.leito ++ " - " ++ s.nome_paciente := by
          simp [String.append_assoc]

theorem numberedLines_getD (xs : List String) :
    ∀ i k, k < xs.length →
      (numberedLines i xs).getD k "" = toString (i + k) ++ "- " ++ xs.getD k "" := by
  induction xs with
  | nil => intro i k hk; simp at hk
  | cons x rest ih =>
    intro i k hk
    cases k with
    | zero => simp [numberedLines]
    | succ k' =>
      simp only [numberedLines, List.getD_cons_succ]
      have hrec := ih (i + 1) k' (by simpa using hk)
      have harg : i + 1 + k' = i + (k' + 1) := by omega
      rw [hrec, harg]

/-- C2: for every record, `formatar` yields exactly the newline-join of the
header line carrying bed and patient name, a blank line, the diagnoses
header with its 1-based numbered entries in order, a blank line, the pending
header with its 1-based numbered entries in order, a blank line, and the
actions header with its bullet-marked unnumbered entries in order; when no
field embeds a newline these are exactly the physical lines of the output;
the numbered entry at position k carries number k+1; and equal records
always yield the same string. -/
theorem formatar_structure (s : SumarioPaciente) :
    s.formatar = String.intercalate "\n"
      (["Leito " ++ s.leito ++ " - " ++ s.nome_paciente, "", "Diagnósticos:"]
        ++ numberedLines 1 s.diagnosticos ++ ["", "Pendências:"]
        ++ numberedLines 1 s.pendencias ++ ["", "Condutas:"]
        ++ s.condutas.map (fun c => "• " ++ c)) ∧
    (noNewlines s = true →
      splitLines s.formatar
        = ["Leito " ++ s.leito ++ " - " ++ s.nome_paciente, "", "Diagnósticos:"]
            ++ numberedLines 1 s.diagnosticos ++ ["", "Pendências:"]
            ++ numberedLines 1 s.pendencias ++ ["", "Condutas:"]
            ++ s.condutas.map (fun c => "• " ++ c)) ∧
    (∀ (xs : List String) (k : Nat), k < xs.length →
      (numberedLines 1 xs).getD k "" = toString (1 + k) ++ "- " ++ xs.getD k "") ∧
    (∀ t : SumarioPaciente, s = t → s.formatar = t.formatar) := by
  refine ⟨rfl, ?_, ?_, ?_⟩
  · intro h
    exact splitLines_formatar s h
  · intro xs k hk
    exact numberedLines_getD xs 1 k hk
  · intro t ht
    rw [ht]

/-- A concrete newline-free record used to witness the formatter claims. -/
def recC2 : SumarioPaciente := ⟨"2", "Maria", ["p1", "p2"], ["pend"], ["Manter x"]⟩

/-- A concrete newline-free record used to witness round-trip stability. -/
def recC5 : SumarioPaciente :=
  ⟨"3", "João Silva", ["IRA"], ["TC de tórax"], ["Manter norepinefrina"]⟩

/-- A valid record whose single diagnosis embeds a newline. -/
def recC5bad : SumarioPaciente := ⟨"1", "Ana", ["a\nb"], [], []⟩

/-- Witness for C2 at a concrete record: it has no embedded newlines and its
rendering splits into exactly the stated lines. -/
theorem formatar_structure_witness :
    noNewlines recC2 = true ∧
    splitLines recC2.formatar
      = ["Leito 2 - Maria", "", "Diagnósticos:", "1- p1", "2- p2", "",
         "Pendências:", "1- pend", "", "Condutas:", "• Manter x"] :=
  ⟨by decide, ((formatar_structure recC2).2.1 (by decide)).trans (by decide)⟩

/-- C5 (amended): formatting is round-trip stable for every record none of
whose fields embeds a newline character: parsing the rendered text and
rendering the parse yields the original rendering. -/
theorem formatar_roundtrip (s : SumarioPaciente) (h : noNewlines s = true) :
    (parseSumario s.formatar).map SumarioPaciente.formatar = some s.formatar := by
  obtain ⟨leito, nome, hparse, hhdr⟩ := parseSumario_formatar s h
  rw [hparse, Option.map_some']
  congr 1
  simp only [SumarioPaciente.formatar, SumarioPaciente.linhas]
  rw [hhdr]

/-- Counterexample to C5 as stated: a valid record whose single diagnosis
embeds a newline renders to text the parser rejects, so the round-trip
equation fails for it. -/
theorem formatar_roundtrip_counterexample :
    (parseSumario recC5bad.formatar).map SumarioPaciente.formatar
      ≠ some recC5bad.formatar := by
  decide

/-- Witness for C5 at a concrete newline-free record. -/
theorem formatar_roundtrip_witness :
    noNewlines recC5 = true ∧
    (parseSumario recC5.formatar).map SumarioPaciente.formatar
      = some recC5.formatar :=
  ⟨by decide, formatar_roundtrip recC5 (by decide)⟩

theorem asStr_some_inv (v : JValue) (s : String) (h : asStr v = some s) : v = .str s := by
  cases v <;> simp [asStr] at h
  rw [h]

theorem mapM_asStr_inv (xs : List JValue) :
    ∀ l, xs.mapM asStr = some l → xs = l.map JValue.str := by
  induction xs with
  | nil =>
    intro l h
    rw [List.mapM_nil] at h
    simp only [Option.pure_def] at h
    cases h
    rfl
  | cons x rest ih =>
    intro l h
    rw [List.mapM_cons] at h
    cases hx : asStr x with
    | none => rw [hx] at h; simp at h
    | some s =>
      rw [hx] at h
      cases hr : rest.mapM asStr with
      | none => rw [hr] at h; simp at h
      | some l' =>
        rw [hr] at h
        simp only [Option.pure_def, Option.bind_eq_bind, Option.some_bind] at h
        cases h
        rw [asStr_some_inv x s hx, List.map_cons, ← ih l' hr]

theorem mapM_asStr_none (xs : List JValue) (h : ∃ v ∈ xs, asStr v = none) :
    xs.mapM asStr = none := by
  induction xs with
  | nil => obtain ⟨v, hv, _⟩ := h; simp at hv
  | cons x rest ih =>
    obtain ⟨v, hv, hvn⟩ := h
    rw [List.mapM_cons]
    rcases List.mem_cons.mp hv with rfl | hm
    · rw [hvn]; rfl
    · cases hx : asStr x with
      | none => rfl
      | some s =>
        rw [ih ⟨v, hm, hvn⟩]
        rfl

theorem requireStr_ok_inv (payload : List (String × JValue)) (f a : String)
    (h : requireStr payload f = .ok a) : lookupField payload f = some (.str a) := by
  cases hl : lookupField payload f with
  | none =>
    simp only [requireStr, hl] at h
    exact Except.noConfusion h
  | some v =>
    cases hv : asStr v with
    | none =>
      simp only [requireStr, hl, hv] at h
      exact Except.noConfusion h
    | some s =>
      simp only [requireStr, hl, hv, Except.ok.injEq] at h
      rw [asStr_some_inv v s hv, h]

theorem requireStrList_ok_inv (payload : List (String × JValue)) (f : String)
    (l : List String) (h : requireStrList payload f = .ok l) :
    lookupField payload f = some (.arr (l.map JValue.str)) := by
  cases hl : lookupField payload f with
  | none =>
    simp only [requireStrList, hl] at h
    exact Except.noConfusion h
  | some v =>
    cases v with
    | arr xs =>
      cases hm : xs.mapM asStr with
      | none =>
        simp only [requireStrList, hl, hm] at h
        exact Except.noConfusion h
      | some l' =>
        simp only [requireStrList, hl, hm, Except.ok.injEq] at h
        rw [mapM_asStr_inv xs l' hm, h]
    | str s =>
      simp only [requireStrList, hl] at h
      exact Except.noConfusion h
    | num n =>
      simp only [requireStrList, hl] at h
      exact Except.noConfusion h
    | bool b =>
      simp only [requireStrList, hl] at h
      exact Except.noConfusion h
    | null =>
      simp only [requireStrList, hl] at h
      exact Except.noConfusion h
    | obj fs =>
      simp only [requireStrList, hl] at h
      exact Except.noConfusion h

theorem validate_ok_inv (payload : List (String × JValue)) (s : SumarioPaciente)
    (h : SumarioPaciente.validate payload = .ok s) :
    requireStr payload "leito" = .ok s.leito ∧
    requireStr payload "nome_paciente" = .ok s.nome_paciente ∧
    requireStrList payload "diagnosticos" = .ok s.diagnosticos ∧
    requireStrList payload "pendencias" = .ok s.pendencias ∧
    requireStrList payload "condutas" = .ok s.condutas := by
  unfold SumarioPaciente.validate at h
  cases h1 : requireStr payload "leito" with
  | error e => rw [h1] at h; simp at h
  | ok leito =>
    rw [h1] at h
    cases h2 : requireStr payload "nome_paciente" with
    | error e => rw [h2] at h; simp at h
    | ok nome =>
      rw [h2] at h
      cases h3 : requireStrList payload "diagnosticos" with
      | error e => rw [h3] at h; simp at h
      | ok d =>
        rw [h3] at h
        cases h4 : requireStrList payload "pendencias" with
        | error e => rw [h4] at h; simp at h
        | ok p =>
          rw [h4] at h
          cases h5 : requireStrList payload "condutas" with
          | error e => rw [h5] at h; simp at h
          | ok c =>
            rw [h5] at h
            cases h
            exact ⟨rfl, rfl, rfl, rfl, rfl⟩

theorem mapM_asStr_map (l : List String) :
    (l.map JValue.str).mapM asStr = some l := by
  induction l with
  | nil => rfl
  | cons x rest ih =>
    rw [List.map_cons, List.mapM_cons, ih]
    rfl

/-- C3: deserialization fails whenever one of the five required fields is
absent, and whenever a list-typed field holds an array containing a
non-string element; and it succeeds only on payloads carrying all five
fields with the scalar fields strings and the list fields arrays of
strings. -/
theorem schema_validation_spec (payload : List (String × JValue)) :
    ((∃ f ∈ requiredFields, lookupField payload f = none) →
      ∃ e, SumarioPaciente.validate payload = .error e) ∧
    ((∃ f ∈ listFields, ∃ xs, lookupField payload f = some (.arr xs) ∧
        ∃ v ∈ xs, asStr v = none) →
      ∃ e, SumarioPaciente.validate payload = .error e) ∧
    (∀ s, SumarioPaciente.validate payload = .ok s →
      lookupField payload "leito" = some (.str s.leito) ∧
      lookupField payload "nome_paciente" = some (.str s.nome_paciente) ∧
      lookupField payload "diagnosticos" = some (.arr (s.diagnosticos.map JValue.str)) ∧
      lookupField payload "pendencias" = some (.arr (s.pendencias.map JValue.str)) ∧
      lookupField payload "condutas" = some (.arr (s.condutas.map JValue.str))) := by
  refine ⟨?_, ?_, ?_⟩
  · rintro ⟨f, hf, hnone⟩
    cases hv : SumarioPaciente.validate payload with
    | error e => exact ⟨e, rfl⟩
    | ok s =>
      obtain ⟨h1, h2, h3, h4, h5⟩ := validate_ok_inv payload s hv
      exfalso
      simp only [requiredFields, List.mem_cons, List.not_mem_nil, or_false] at hf
      rcases hf with rfl | rfl | rfl | rfl | rfl
      · rw [requireStr_ok_inv payload _ _ h1] at hnone; exact Option.noConfusion hnone
      · rw [requireStr_ok_inv payload _ _ h2] at hnone; exact Option.noConfusion hnone
      · rw [requireStrList_ok_inv payload _ _ h3] at hnone; exact Option.noConfusion hnone
      · rw [requireStrList_ok_inv payload _ _ h4] at hnone; exact Option.noConfusion hnone
      · rw [requireStrList_ok_inv payload _ _ h5] at hnone; exact Option.noConfusion hnone
  · rintro ⟨f, hf, xs, hlook, v, hvmem, hvnone⟩
    cases hv : SumarioPaciente.validate payload with
    | error e => exact ⟨e, rfl⟩
    | ok s =>
      obtain ⟨h1, h2, h3, h4, h5⟩ := validate_ok_inv payload s hv
      exfalso
      have hmapnone := mapM_asStr_none xs ⟨v, hvmem, hvnone⟩
      simp only [listFields, List.mem_cons, List.not_mem_nil, or_false] at hf
      rcases hf with rfl | rfl | rfl
      · have hli := requireStrList_ok_inv payload _ _ h3
        rw [hlook] at hli
        simp only [Option.some.injEq, JValue.arr.injEq] at hli
        rw [hli, mapM_asStr_map] at hmapnone
        exact Option.noConfusion hmapnone
      · have hli := requireStrList_ok_inv payload _ _ h4
        rw [hlook] at hli
        simp only [Option.some.injEq, JValue.arr.injEq] at hli
        rw [hli, mapM_asStr_map] at hmapnone
        exact Option.noConfusion hmapnone
      · have hli := requireStrList_ok_inv payload _ _ h5
        rw [hlook] at hli
        simp only [Option.some.injEq, JValue.arr.injEq] at hli
        rw [hli, mapM_asStr_map] at hmapnone
        exact Option.noConfusion hmapnone
  · intro s hv
    obtain ⟨h1, h2, h3, h4, h5⟩ := validate_ok_inv payload s hv
    exact ⟨requireStr_ok_inv _ _ _ h1, requireStr_ok_inv _ _ _ h2,
      requireStrList_ok_inv _ _ _ h3, requireStrList_ok_inv _ _ _ h4,
      requireStrList_ok_inv _ _ _ h5⟩

/-- A payload carrying all five fields with conforming values. -/
def goodPayload : List (String × JValue) :=
  [("leito", .str "1"), ("nome_paciente", .str "Ana"),
   ("diagnosticos", .arr [.str "d"]), ("pendencias", .arr []),
   ("condutas", .arr [.str "Manter"])]

/-- A payload carrying all five fields whose diagnoses array holds a number. -/
def badListPayload : List (String × JValue) :=
  [("leito", .str "1"), ("nome_paciente", .str "Ana"),
   ("diagnosticos", .arr [.num 1]), ("pendencias", .arr []),
   ("condutas", .arr [])]

/-- Witness for C3 at concrete payloads: the empty payload is rejected, a
payload with a number inside a list field is rejected, and a conforming
payload's five fields are all present with the stated shapes. -/
theorem schema_validation_spec_witness :
    (∃ e, SumarioPaciente.validate [] = .error e) ∧
    (∃ e, SumarioPaciente.validate badListPayload = .error e) ∧
    (lookupField goodPayload "leito" = some (.str "1") ∧
      lookupField goodPayload "nome_paciente" = some (.str "Ana") ∧
      lookupField goodPayload "diagnosticos" = some (.arr [.str "d"]) ∧
      lookupField goodPayload "pendencias" = some (.arr []) ∧
      lookupField goodPayload "condutas" = some (.arr [.str "Manter"])) := by
  refine ⟨(schema_validation_spec []).1 ⟨"leito", by simp [requiredFields], rfl⟩,
    (schema_validation_spec badListPayload).2.1
      ⟨"diagnosticos", by simp [listFields], [JValue.num 1], rfl,
        JValue.num 1, by simp, rfl⟩, ?_⟩
  exact (schema_validation_spec goodPayload).2.2
    ⟨"1", "Ana", ["d"], [], ["Manter"]⟩ rfl

theorem lookupField_cons_ne (k f : String) (v : JValue)
    (payload : List (String × JValue)) (h : k ≠ f) :
    lookupField ((k, v) :: payload) f = lookupField payload f := by
  have hb : (k == f) = false := beq_eq_false_iff_ne.mpr h
  simp [lookupField, List.find?_cons, hb]

/-- C10: deserialization ignores unknown extra keys — a payload extended
with a pair whose key is not one of the five required fields validates to
exactly the same result as the payload without it. -/
theorem validate_ignores_extra (k : String) (v : JValue)
    (payload : List (String × JValue)) (h : k ∉ requiredFields) :
    SumarioPaciente.validate ((k, v) :: payload)
      = SumarioPaciente.validate payload := by
  have h1 : k ≠ "leito" := by rintro rfl; exact h (by simp [requiredFields])
  have h2 : k ≠ "nome_paciente" := by rintro rfl; exact h (by simp [requiredFields])
  have h3 : k ≠ "diagnosticos" := by rintro rfl; exact h (by simp [requiredFields])
  have h4 : k ≠ "pendencias" := by rintro rfl; exact h (by simp [requiredFields])
  have h5 : k ≠ "condutas" := by rintro rfl; exact h (by simp [requiredFields])
  simp only [SumarioPaciente.validate, requireStr, requireStrList,
    lookupField_cons_ne k "leito" v payload h1,
    lookupField_cons_ne k "nome_paciente" v payload h2,
    lookupField_cons_ne k "diagnosticos" v payload h3,
    lookupField_cons_ne k "pendencias" v payload h4,
    lookupField_cons_ne k "condutas" v payload h5]

/-- Witness for C10 at a concrete payload: an extra key is not among the
required fields and its presence leaves validation unchanged. -/
theorem validate_ignores_extra_witness :
    ("extra" ∉ requiredFields) ∧
    SumarioPaciente.validate (("extra", JValue.num 7) :: goodPayload)
      = SumarioPaciente.validate goodPayload :=
  ⟨by decide, validate_ignores_extra "extra" (JValue.num 7) goodPayload (by decide)⟩

/-- C1: `process_audio` returns exactly the pair of the transcription-stage
result and the extraction-stage result on that transcript alone; if either
stage fails, the very same error surfaces and no partial pair is returned. -/
theorem process_audio_spec
    (svc : TranscriptionRequest → Except PyError VerboseTranscriptionResponse)
    (gen : ExtractionRequest → Except PyError JValue)
    (audio_bytes : List Nat) (filename : String) :
    (∀ e, transcribe_audio svc audio_bytes filename = .error e →
      process_audio svc gen audio_bytes filename = .error e) ∧
    (∀ t e, transcribe_audio svc audio_bytes filename = .ok t →
      analyze_transcription gen t = .error e →
      process_audio svc gen audio_bytes filename = .error e) ∧
    (∀ t s, transcribe_audio svc audio_bytes filename = .ok t →
      analyze_transcription gen t = .ok s →
      process_audio svc gen audio_bytes filename = .ok (t, s)) := by
  refine ⟨?_, ?_, ?_⟩
  · intro e he
    simp [process_audio, he]
  · intro t e ht ha
    simp [process_audio, ht, ha]
  · intro t s ht ha
    simp [process_audio, ht, ha]

/-- A transcription service that always succeeds. -/
def svcOkW : TranscriptionRequest → Except PyError VerboseTranscriptionResponse :=
  fun _ => .ok ⟨"texto", [], "pt"⟩

/-- A transcription service that always fails with an auth fault. -/
def svcFailW : TranscriptionRequest → Except PyError VerboseTranscriptionResponse :=
  fun _ => .error (.upstream "auth")

/-- A generation service that always returns a conforming payload. -/
def genOkW : ExtractionRequest → Except PyError JValue :=
  fun _ => .ok (.obj goodPayload)

/-- A generation service that always fails with a network fault. -/
def genFailW : ExtractionRequest → Except PyError JValue :=
  fun _ => .error (.upstream "net")

/-- A generation service that always returns a non-conforming payload. -/
def genBadW : ExtractionRequest → Except PyError JValue :=
  fun _ => .ok (.obj [])

/-- Witness for C1 at concrete oracles: a failing transcription aborts with
that error, a failing extraction aborts with that error after a successful
transcription, and two successes yield the pair. -/
theorem process_audio_spec_witness :
    (transcribe_audio svcFailW [0] "a.mp3" = .error (.upstream "auth") ∧
      process_audio svcFailW genOkW [0] "a.mp3" = .error (.upstream "auth")) ∧
    (transcribe_audio svcOkW [0] "a.mp3" = .ok "texto" ∧
      analyze_transcription genFailW "texto" = .error (.upstream "net") ∧
      process_audio svcOkW genFailW [0] "a.mp3" = .error (.upstream "net")) ∧
    (process_audio svcOkW genOkW [0] "a.mp3"
      = .ok ("texto", ⟨"1", "Ana", ["d"], [], ["Manter"]⟩)) :=
  ⟨⟨rfl, (process_audio_spec svcFailW genOkW [0] "a.mp3").1 _ rfl⟩,
   ⟨rfl, rfl, (process_audio_spec svcOkW genFailW [0] "a.mp3").2.1 "texto" _ rfl rfl⟩,
   (process_audio_spec svcOkW genOkW [0] "a.mp3").2.2 "texto" _ rfl rfl⟩

/-- C6: a transcription-stage fault surfaces to the caller exactly as the
upstream fault; an extraction-stage upstream fault surfaces exactly as that
fault; and a schema-nonconforming extraction output surfaces as the
validation failure it produced — each carrying the underlying detail, with
each service invoked exactly once (the adapters apply their service to a
single request and return). -/
theorem error_propagation_spec
    (svc : TranscriptionRequest → Except PyError VerboseTranscriptionResponse)
    (gen : ExtractionRequest → Except PyError JValue)
    (audio_bytes : List Nat) (filename : String) (t : String) :
    (∀ e, svc (transcriptionRequest audio_bytes filename) = .error e →
      transcribe_audio svc audio_bytes filename = .error e) ∧
    (∀ e, gen (extractionRequest t) = .error e →
      analyze_transcription gen t = .error e) ∧
    (∀ j v, gen (extractionRequest t) = .ok j → validateTop j = .error v →
      analyze_transcription gen t = .error (.validation v)) := by
  refine ⟨?_, ?_, ?_⟩
  · intro e he
    simp [transcribe_audio, he]
  · intro e he
    simp [analyze_transcription, he]
  · intro j v hj hv
    simp [analyze_transcription, hj, hv]

/-- Witness for C6 at concrete oracles: an upstream transcription fault, an
upstream extraction fault, and a non-conforming extraction output each
surface with their detail. -/
theorem error_propagation_spec_witness :
    (svcFailW (transcriptionRequest [0] "a.mp3") = .error (.upstream "auth") ∧
      transcribe_audio svcFailW [0] "a.mp3" = .error (.upstream "auth")) ∧
    (genFailW (extractionRequest "t") = .error (.upstream "net") ∧
      analyze_transcription genFailW "t" = .error (.upstream "net")) ∧
    (genBadW (extractionRequest "t") = .ok (.obj []) ∧
      validateTop (.obj []) = .error (.missingField "leito") ∧
      analyze_transcription genBadW "t"
        = .error (.validation (.missingField "leito"))) :=
  ⟨⟨rfl, (error_propagation_spec svcFailW genFailW [0] "a.mp3" "t").1 _ rfl⟩,
   ⟨rfl, (error_propagation_spec svcFailW genFailW [0] "a.mp3" "t").2.1 _ rfl⟩,
   ⟨rfl, rfl, (error_propagation_spec svcFailW genBadW [0] "a.mp3" "t").2.2
      (.obj []) (.missingField "leito") rfl rfl⟩⟩

/-- C8: for every byte sequence and filename — with no local validation of
either — the transcription adapter issues the request with temperature 0,
the verbose response format, the fixed fast Whisper model, and the file
tuple passed through, and its result is exactly the service outcome mapped
to the flat top-level transcript text, discarding the rest of the verbose
response. -/
theorem transcription_adapter_spec
    (svc : TranscriptionRequest → Except PyError VerboseTranscriptionResponse)
    (audio_bytes : List Nat) (filename : String) :
    (transcriptionRequest audio_bytes filename).temperature = 0 ∧
    (transcriptionRequest audio_bytes filename).response_format = "verbose_json" ∧
    (transcriptionRequest audio_bytes filename).model = WHISPER_MODEL ∧
    (transcriptionRequest audio_bytes filename).file_name = filename ∧
    (transcriptionRequest audio_bytes filename).file_bytes = audio_bytes ∧
    transcribe_audio svc audio_bytes filename
      = (svc (transcriptionRequest audio_bytes filename)).map
          VerboseTranscriptionResponse.text := by
  refine ⟨rfl, rfl, rfl, rfl, rfl, ?_⟩
  unfold transcribe_audio
  cases svc (transcriptionRequest audio_bytes filename) <;> rfl

/-- C7: the reset operation, applied to any session state, yields the idle
state: empty message history, no stored transcription, no finalized record. -/
theorem resetSession_spec (st : ChatSession) :
    (resetSession st).messages = [] ∧
    (resetSession st).transcription = none ∧
    (resetSession st).sumario_final = none :=
  ⟨rfl, rfl, rfl⟩

/-- C4: when the assistant turn carries a delimited payload that fails JSON
decoding or schema validation, the session does not finalize: the stored
finalized record and the stored transcription are unchanged, the history is
exactly the ordinary append of the user and assistant turns, and the turn
ends in a recoverable warning, leaving the session able to continue. -/
theorem chat_no_finalize_on_bad_payload
    (gen : List ChatMessage → String) (loads : String → Option JValue)
    (st : ChatSession) (prompt : String) (resp payload : String)
    (hresp : gen (st.messages ++ [⟨"user", prompt⟩]) = resp)
    (hpay : extractPayload resp = some payload)
    (hbad : loads payload = none ∨
      ∃ j, loads payload = some j ∧ ∃ v, validateTop j = .error v) :
    (chatTurn gen loads st prompt).1.sumario_final = st.sumario_final ∧
    (chatTurn gen loads st prompt).1.messages
      = st.messages ++ [⟨"user", prompt⟩, ⟨"assistant", resp⟩] ∧
    (chatTurn gen loads st prompt).1.transcription = st.transcription ∧
    (chatTurn gen loads st prompt).2 = .warned := by
  rcases hbad with hnone | ⟨j, hj, v, hv⟩
  · simp [chatTurn, hresp, hpay, hnone]
  · simp [chatTurn, hresp, hpay, hj, hv]

/-- A generator that always answers with a payload that cannot decode. -/
def genWarnW : List ChatMessage → String :=
  fun _ => "<sumario_json>oops</sumario_json>"

/-- A JSON decoder that fails on every input. -/
def loadsNoneW : String → Option JValue := fun _ => none

/-- A mid-conversation session state holding a previously finalized record. -/
def stW : ChatSession :=
  ⟨[⟨"user", "oi"⟩], some "t", some ⟨"1", "Ana", ["d"], [], ["Manter"]⟩⟩

/-- Witness for C4 at a concrete turn: the assistant response carries a
payload, decoding fails, and the session keeps its previous finalized
record, appends the two turns, and warns. -/
theorem chat_no_finalize_witness :
    extractPayload "<sumario_json>oops</sumario_json>" = some "oops" ∧
    loadsNoneW "oops" = none ∧
    ((chatTurn genWarnW loadsNoneW stW "confirmo").1.sumario_final
        = stW.sumario_final ∧
      (chatTurn genWarnW loadsNoneW stW "confirmo").1.messages
        = stW.messages ++ [⟨"user", "confirmo"⟩,
            ⟨"assistant", "<sumario_json>oops</sumario_json>"⟩] ∧
      (chatTurn genWarnW loadsNoneW stW "confirmo").1.transcription
        = stW.transcription ∧
      (chatTurn genWarnW loadsNoneW stW "confirmo").2 = .warned) :=
  ⟨by decide, rfl,
    chat_no_finalize_on_bad_payload genWarnW loadsNoneW stW "confirmo"
      "<sumario_json>oops</sumario_json>" "oops" rfl (by decide) (Or.inl rfl)⟩

theorem extractPayload_eq (resp : String) :
    extractPayload resp =
      match findSubstr openTag resp.toList, findSubstr closeTag resp.toList with
      | some o, some c => some (String.mk (trimChars
          ((resp.toList.drop (o + openTag.length)).take (c - (o + openTag.length)))))
      | _, _ => none := rfl

theorem extractPayload_some (resp : String) (o c : Nat)
    (ho : findSubstr openTag resp.toList = some o)
    (hc : findSubstr closeTag resp.toList = some c) :
    extractPayload resp = some (String.mk (trimChars
      ((resp.toList.drop (o + openTag.length)).take (c - (o + openTag.length))))) := by
  rw [extractPayload_eq, ho, hc]

theorem extractPayload_none_iff (resp : String) :
    extractPayload resp = none ↔
      ¬((findSubstr openTag resp.toList).isSome = true ∧
        (findSubstr closeTag resp.toList).isSome = true) := by
  rw [extractPayload_eq]
  cases ho : findSubstr openTag resp.toList <;>
    cases hc : findSubstr closeTag resp.toList <;> simp

/-- C9: finalization is a function of the assistant text alone — no payload
is extracted unless both sentinel tags occur in it (and the turn is then an
ordinary one leaving the finalized record unchanged); when both occur, the
candidate payload is exactly the whitespace-stripped slice between the end
of the first opening tag and the first closing tag; the turn's outcome never
depends on the session history or the user's prompt; and when the first
closing tag precedes the first opening tag the extracted payload is the
empty string, whose decoding failure ends the turn in a recoverable warning
with the finalized record unchanged. -/
theorem finalize_trigger_spec (loads : String → Option JValue) (resp : String)
    (st : ChatSession) (prompt : String) :
    (extractPayload resp = none →
      (chatTurn (fun _ => resp) loads st prompt).2 = .plain ∧
      (chatTurn (fun _ => resp) loads st prompt).1.sumario_final
        = st.sumario_final) ∧
    (extractPayload resp = none ↔
      ¬((findSubstr openTag resp.toList).isSome = true ∧
        (findSubstr closeTag resp.toList).isSome = true)) ∧
    (∀ o c, findSubstr openTag resp.toList = some o →
      findSubstr closeTag resp.toList = some c →
      extractPayload resp = some (String.mk (trimChars
        ((resp.toList.drop (o + openTag.length)).take
          (c - (o + openTag.length)))))) ∧
    (∀ st' prompt', (chatTurn (fun _ => resp) loads st' prompt').2
      = (chatTurn (fun _ => resp) loads st prompt).2) ∧
    (∀ o c, findSubstr openTag resp.toList = some o →
      findSubstr closeTag resp.toList = some c → c < o →
      extractPayload resp = some "" ∧
      (loads "" = none →
        (chatTurn (fun _ => resp) loads st prompt).2 = .warned ∧
        (chatTurn (fun _ => resp) loads st prompt).1.sumario_final
          = st.sumario_final)) := by
  refine ⟨?_, extractPayload_none_iff resp, extractPayload_some resp, ?_, ?_⟩
  · intro hnone
    constructor <;> simp [chatTurn, hnone]
  · intro st' prompt'
    cases hp : extractPayload resp with
    | none => simp [chatTurn, hp]
    | some payload =>
      cases hl : loads payload with
      | none => simp [chatTurn, hp, hl]
      | some j =>
        cases hv : validateTop j with
        | error e => simp [chatTurn, hp, hl, hv]
        | ok s => simp [chatTurn, hp, hl, hv]
  · intro o c ho hc hlt
    have hzero : c - (o + openTag.length) = 0 := by omega
    have hpay := extractPayload_some resp o c ho hc
    rw [hzero, List.take_zero] at hpay
    have hempty : String.mk (trimChars []) = "" := rfl
    rw [hempty] at hpay
    refine ⟨hpay, fun hl => ?_⟩
    constructor <;> simp [chatTurn, hpay, hl]

/-- Witness for C9 at a concrete assistant text whose first closing tag
precedes its first opening tag: the payload is the empty string and the
turn warns without finalizing. -/
theorem finalize_trigger_witness :
    (findSubstr openTag ("</sumario_json>x<sumario_json>").toList = some 16 ∧
      findSubstr closeTag ("</sumario_json>x<sumario_json>").toList = some 0) ∧
    extractPayload "</sumario_json>x<sumario_json>" = some "" ∧
    ((chatTurn (fun _ => "</sumario_json>x<sumario_json>") loadsNoneW stW "ok").2
        = .warned ∧
      (chatTurn (fun _ => "</sumario_json>x<sumario_json>") loadsNoneW stW "ok").1.sumario_final
        = stW.sumario_final) := by
  have h := (finalize_trigger_spec loadsNoneW "</sumario_json>x<sumario_json>"
    stW "ok").2.2.2.2 16 0 (by decide) (by decide) (by omega)
  exact ⟨⟨by decide, by decide⟩, h.1, h.2 rfl⟩
